import Mathlib

/-!
Verification development for `src/server/src/imageProcessing/process_image.py`.

Shallow embedding conventions:
* Python float division `/` is modelled as exact division in `ℚ`, and the
  Python `int()` conversion as truncation toward zero (`ratTrunc`).
* The PIL image object is abstracted to its pixel dimensions after EXIF
  orientation correction and mode conversion (`Img`).
* Filesystem existence, decoding success and per-path save success are
  abstracted into an environment of Boolean outcomes (`Env`); a Python
  exception raised while resizing/encoding/writing an output corresponds to
  `Env.saveOk path = false`.
* `sys.exit(1)` and falling off the end of the script are modelled by the
  `exitCode` field of `RunResult`; messages printed to standard error are
  collected in `stderr`, and the files successfully written to disk in
  `saved`.
-/

namespace Photrix

/-- Python `int()` applied to a (nonnegative or negative) number:
truncation toward zero. On a rational with positive denominator this is
the truncating division of the numerator by the denominator. -/
def ratTrunc (q : ℚ) : Int := q.num.tdiv (q.den : Int)

/-- The scaling factor `ratio = min(max_dimension / original_width,
max_dimension / original_height)` computed at `process_image.py` line 36. -/
def resizeScale (w h : Nat) (m : Int) : ℚ :=
  min ((m : ℚ) / (w : ℚ)) ((m : ℚ) / (h : ℚ))

/-- The dimensions of the image written for one output descriptor, from
`process_image.py` lines 29-38: `max_dimension = output.get('height')` is
`none` when the key is absent or `None`; the resize branch is guarded by
Python truthiness (`if max_dimension:`, false for `None` and `0`) and then
by `original_width > max_dimension or original_height > max_dimension`;
the new size is `(int(w * ratio), int(h * ratio))`. -/
def outputDims (w h : Nat) (maxDim : Option Int) : Int × Int :=
  match maxDim with
  | none => ((w : Int), (h : Int))
  | some m =>
    if m ≠ 0 then
      if (w : Int) > m ∨ (h : Int) > m then
        (ratTrunc ((w : ℚ) * resizeScale w h m),
         ratTrunc ((h : ℚ) * resizeScale w h m))
      else ((w : Int), (h : Int))
    else ((w : Int), (h : Int))

/-- Rounding of a rational to the nearest integer, ties to even: the
rounding of the scaled significand used by IEEE-754 binary64. -/
def roundNearestEven (s : ℚ) : Int :=
  if s - ⌊s⌋ < 1/2 then ⌊s⌋
  else if 1/2 < s - ⌊s⌋ then ⌊s⌋ + 1
  else if ⌊s⌋ % 2 = 0 then ⌊s⌋ else ⌊s⌋ + 1

/-- The IEEE-754 binary64 (Python float) value nearest to an exact
rational: the significand is rounded to 53 bits (round to nearest, ties
to even) at the value's own binade. The exponent is unbounded, so this
agrees with binary64 on the whole normal range; the dimensions and
ratios this program computes never reach the subnormal or overflow
ranges. -/
def roundDouble (q : ℚ) : ℚ :=
  if q = 0 then 0
  else ((Int.sign q.num : Int) : ℚ) *
    ((roundNearestEven (|q| * 2 ^ (52 - Int.log 2 |q|)) : ℚ) *
      2 ^ (Int.log 2 |q| - 52))

/-- The scaling factor of `process_image.py` line 36 under the program's
actual arithmetic: Python's `/` on ints yields the correctly rounded
double of the exact quotient, and `min` of doubles is exact. -/
def resizeScaleFP (w h : Nat) (m : Int) : ℚ :=
  min (roundDouble ((m : ℚ) / (w : ℚ))) (roundDouble ((m : ℚ) / (h : ℚ)))

/-- The dimensions of `process_image.py` lines 29-38 under the program's
actual double arithmetic: `int(original_width * ratio)` multiplies the
exactly represented integer dimension by the double ratio with one more
correct rounding, then truncates toward zero. -/
def outputDimsFP (w h : Nat) (maxDim : Option Int) : Int × Int :=
  match maxDim with
  | none => ((w : Int), (h : Int))
  | some m =>
    if m ≠ 0 then
      if (w : Int) > m ∨ (h : Int) > m then
        (ratTrunc (roundDouble ((w : ℚ) * resizeScaleFP w h m)),
         ratTrunc (roundDouble ((h : ℚ) * resizeScaleFP w h m)))
      else ((w : Int), (h : Int))
    else ((w : Int), (h : Int))

/-- One element of the `--outputs` JSON list: a destination path and the
optional `height` value used as the max dimension. -/
structure OutputSpec where
  path : String
  height : Option Int
deriving DecidableEq

/-- The image opened from the input path, after `ImageOps.exif_transpose`
and the RGB mode conversion: only its pixel dimensions are observable in
the claims. -/
structure Img where
  width : Nat
  height : Nat
deriving DecidableEq

/-- A file written by `current_img.save(output_path, "JPEG", quality=85)`
(`process_image.py` lines 40-41). -/
structure SavedFile where
  path : String
  dims : Int × Int
  format : String
  quality : Nat
deriving DecidableEq

/-- Abstraction of the outside world: whether the input path exists,
whether `Image.open` / `exif_transpose` / mode conversion succeed, the
resulting image, and whether saving to a given path succeeds. -/
structure Env where
  fileExists : Bool
  decodeOk : Bool
  img : Img
  saveOk : String → Bool

/-- Observable outcome of one run of the script. -/
structure RunResult where
  exitCode : Nat
  stderr : List String
  saved : List SavedFile
deriving DecidableEq

/-- The file produced for one output descriptor when the save succeeds
(`process_image.py` lines 28-41). -/
def saveOutput (img : Img) (o : OutputSpec) : SavedFile :=
  { path := o.path
    dims := outputDims img.width img.height o.height
    format := "JPEG"
    quality := 85 }

/-- The `for output in outputs:` loop of `process_image.py` lines 27-42:
processes descriptors in order; a failing save raises, so the loop stops
there, keeping the files already written. Returns the written files and
whether the whole loop completed without an exception. -/
def runOutputs (img : Img) (saveOk : String → Bool) :
    List OutputSpec → List SavedFile × Bool
  | [] => ([], true)
  | o :: rest =>
    if saveOk o.path then
      let r := runOutputs img saveOk rest
      (saveOutput img o :: r.1, r.2)
    else ([], false)

/-- `process_image(input_path, outputs)` from `process_image.py` lines
11-46: missing input file prints to stderr and exits 1; any exception
while opening or saving is caught by the catch-all, printed to stderr,
and exits 1; otherwise the function returns and the script exits 0. -/
def process_image (env : Env) (input_path : String)
    (outputs : List OutputSpec) : RunResult :=
  if env.fileExists = false then
    { exitCode := 1
      stderr := ["Error: Input file not found: " ++ input_path]
      saved := [] }
  else if env.decodeOk = false then
    { exitCode := 1
      stderr := ["Error processing image: decode failed"]
      saved := [] }
  else
    let r := runOutputs env.img env.saveOk outputs
    if r.2 then { exitCode := 0, stderr := [], saved := r.1 }
    else
      { exitCode := 1
        stderr := ["Error processing image: save failed"]
        saved := r.1 }

/-- The parsed command-line arguments of the script (after a successful
`argparse` run): required positional `input_path`, optional `--outputs`
JSON string, optional positional `output_path`, optional
`--max_dimension`. -/
structure Args where
  input_path : String
  outputs : Option String
  output_path : Option String
  max_dimension : Option Int

/-- Python truthiness of an optional string (`if args.outputs:`):
`None` and the empty string are falsy. -/
def truthyStr : Option String → Bool
  | none => false
  | some s => s ≠ ""

/-- The `__main__` dispatch of `process_image.py` lines 48-65, starting
from parsed arguments. `parseJson` models `json.loads` restricted to the
shapes this script consumes; a parse failure is an uncaught exception,
which terminates a Python process with exit status 1. -/
def main_run (env : Env) (parseJson : String → Option (List OutputSpec))
    (args : Args) : RunResult :=
  if truthyStr args.outputs then
    match parseJson (args.outputs.getD "") with
    | some outs => process_image env args.input_path outs
    | none =>
      { exitCode := 1
        stderr := ["Traceback: json.decoder.JSONDecodeError"]
        saved := [] }
  else if truthyStr args.output_path then
    process_image env args.input_path
      [{ path := args.output_path.getD "", height := args.max_dimension }]
  else
    { exitCode := 1
      stderr := ["Error: Must provide either --outputs or output_path"]
      saved := [] }

/-- The `argparse` front end of `process_image.py` lines 49-57, applied to
the positional arguments of the command line. Per `argparse` semantics, a
missing required positional argument (`input_path`) makes the parser print
a usage message and terminate the process with exit status 2, and so does
any positional argument beyond the declared two (`unrecognized
arguments`); otherwise the first positional is `input_path` and the
optional second is `output_path`. -/
def parse_and_run (env : Env)
    (parseJson : String → Option (List OutputSpec))
    (positionals : List String) (outputsFlag : Option String)
    (maxDimFlag : Option Int) : RunResult :=
  match positionals with
  | [] =>
    { exitCode := 2
      stderr := ["usage: process_image.py", "error: the following arguments are required: input_path"]
      saved := [] }
  | [ip] =>
    main_run env parseJson
      { input_path := ip, outputs := outputsFlag, output_path := none
        max_dimension := maxDimFlag }
  | [ip, op] =>
    main_run env parseJson
      { input_path := ip, outputs := outputsFlag, output_path := some op
        max_dimension := maxDimFlag }
  | _ :: _ :: _ :: _ =>
    { exitCode := 2
      stderr := ["usage: process_image.py", "error: unrecognized arguments"]
      saved := [] }

/-- A concrete model of `json.loads` on the one string used in witness
instantiations. -/
def demoParse : String → Option (List OutputSpec) :=
  fun t => if t = "J" then some [⟨"o.jpg", some 320⟩] else none

/-! ### Helper lemmas -/

lemma ratTrunc_intCast (n : Int) : ratTrunc (n : ℚ) = n := by
  simp [ratTrunc]

lemma ratTrunc_of_nonneg (q : ℚ) (h : 0 ≤ q) : ratTrunc q = ⌊q⌋ := by
  unfold ratTrunc
  rw [Rat.floor_def]
  exact Int.tdiv_eq_ediv (Rat.num_nonneg.2 h) (Int.natCast_nonneg _)

lemma ratTrunc_le_intCast (q : ℚ) (m : Int) (h0 : 0 ≤ q)
    (h : q ≤ (m : ℚ)) : ratTrunc q ≤ m := by
  rw [ratTrunc_of_nonneg q h0]
  calc ⌊q⌋ ≤ ⌊(m : ℚ)⌋ := Int.floor_le_floor h
    _ = m := Int.floor_intCast m

lemma resizeScale_nonneg (w h : Nat) (m : Int) (hm : 0 ≤ m) :
    0 ≤ resizeScale w h m := by
  unfold resizeScale
  have hm' : (0 : ℚ) ≤ (m : ℚ) := by exact_mod_cast hm
  exact le_min (div_nonneg hm' (Nat.cast_nonneg w))
    (div_nonneg hm' (Nat.cast_nonneg h))

lemma mul_resizeScale_le_left (w h : Nat) (m : Int) (hw : 0 < w) :
    (w : ℚ) * resizeScale w h m ≤ (m : ℚ) := by
  have hw0 : (0 : ℚ) < (w : ℚ) := by exact_mod_cast hw
  have h1 : resizeScale w h m ≤ (m : ℚ) / (w : ℚ) := min_le_left _ _
  calc (w : ℚ) * resizeScale w h m
      ≤ (w : ℚ) * ((m : ℚ) / (w : ℚ)) :=
        mul_le_mul_of_nonneg_left h1 (le_of_lt hw0)
    _ = (m : ℚ) := by field_simp

lemma mul_resizeScale_le_right (w h : Nat) (m : Int) (hh : 0 < h) :
    (h : ℚ) * resizeScale w h m ≤ (m : ℚ) := by
  have hh0 : (0 : ℚ) < (h : ℚ) := by exact_mod_cast hh
  have h1 : resizeScale w h m ≤ (m : ℚ) / (h : ℚ) := min_le_right _ _
  calc (h : ℚ) * resizeScale w h m
      ≤ (h : ℚ) * ((m : ℚ) / (h : ℚ)) :=
        mul_le_mul_of_nonneg_left h1 (le_of_lt hh0)
    _ = (m : ℚ) := by field_simp

lemma resizeScale_eq_left (w h : Nat) (m : Int) (hh : 0 < h) (hle : h ≤ w)
    (hm : 0 ≤ m) : resizeScale w h m = (m : ℚ) / (w : ℚ) := by
  apply min_eq_left
  have hm' : (0 : ℚ) ≤ (m : ℚ) := by exact_mod_cast hm
  have hh' : (0 : ℚ) < (h : ℚ) := by exact_mod_cast hh
  have hle' : (h : ℚ) ≤ (w : ℚ) := by exact_mod_cast hle
  exact div_le_div_of_nonneg_left hm' hh' hle'

lemma resizeScale_eq_right (w h : Nat) (m : Int) (hw : 0 < w) (hle : w ≤ h)
    (hm : 0 ≤ m) : resizeScale w h m = (m : ℚ) / (h : ℚ) := by
  apply min_eq_right
  have hm' : (0 : ℚ) ≤ (m : ℚ) := by exact_mod_cast hm
  have hw' : (0 : ℚ) < (w : ℚ) := by exact_mod_cast hw
  have hle' : (w : ℚ) ≤ (h : ℚ) := by exact_mod_cast hle
  exact div_le_div_of_nonneg_left hm' hw' hle'

/-- When the branch condition holds, `outputDims` takes the resize
branch. -/
lemma outputDims_resize (w h : Nat) (m : Int) (hm : m ≠ 0)
    (hbig : (w : Int) > m ∨ (h : Int) > m) :
    outputDims w h (some m) =
      (ratTrunc ((w : ℚ) * resizeScale w h m),
       ratTrunc ((h : ℚ) * resizeScale w h m)) := by
  simp only [outputDims]
  rw [if_pos hm, if_pos hbig]

/-- In the resize branch, when the height is the smaller dimension the
resized width is exactly the max dimension. -/
lemma trunc_left_eq (w h : Nat) (m : Int) (hw : 0 < w) (hh : 0 < h)
    (hle : h ≤ w) (hm : 0 ≤ m) :
    ratTrunc ((w : ℚ) * resizeScale w h m) = m := by
  rw [resizeScale_eq_left w h m hh hle hm]
  have hw0 : (w : ℚ) ≠ 0 := Nat.cast_ne_zero.2 hw.ne'
  have hcancel : (w : ℚ) * ((m : ℚ) / (w : ℚ)) = (m : ℚ) := by
    field_simp
  rw [hcancel, ratTrunc_intCast]

/-- In the resize branch, when the width is the smaller dimension the
resized height is exactly the max dimension. -/
lemma trunc_right_eq (w h : Nat) (m : Int) (hw : 0 < w) (hh : 0 < h)
    (hle : w ≤ h) (hm : 0 ≤ m) :
    ratTrunc ((h : ℚ) * resizeScale w h m) = m := by
  rw [resizeScale_eq_right w h m hw hle hm]
  have hh0 : (h : ℚ) ≠ 0 := Nat.cast_ne_zero.2 hh.ne'
  have hcancel : (h : ℚ) * ((m : ℚ) / (h : ℚ)) = (m : ℚ) := by
    field_simp
  rw [hcancel, ratTrunc_intCast]

/-- Both computed dimensions are bounded by a positive max dimension. -/
lemma outputDims_le (w h : Nat) (m : Int) (hw : 0 < w) (hh : 0 < h)
    (hm : 0 < m) :
    (outputDims w h (some m)).1 ≤ m ∧ (outputDims w h (some m)).2 ≤ m := by
  by_cases hbig : (w : Int) > m ∨ (h : Int) > m
  · rw [outputDims_resize w h m hm.ne' hbig]
    refine ⟨ratTrunc_le_intCast _ m ?_ (mul_resizeScale_le_left w h m hw),
            ratTrunc_le_intCast _ m ?_ (mul_resizeScale_le_right w h m hh)⟩
    · exact mul_nonneg (Nat.cast_nonneg w) (resizeScale_nonneg w h m hm.le)
    · exact mul_nonneg (Nat.cast_nonneg h) (resizeScale_nonneg w h m hm.le)
  · push_neg at hbig
    simp only [outputDims]
    rw [if_pos hm.ne',
      if_neg (not_or.mpr ⟨not_lt.2 hbig.1, not_lt.2 hbig.2⟩)]
    exact ⟨hbig.1, hbig.2⟩

/-! ### Floating-point rounding lemmas -/

lemma roundNearestEven_sub_abs_le (s : ℚ) :
    |(roundNearestEven s : ℚ) - s| ≤ 1/2 := by
  have h1 : (⌊s⌋ : ℚ) ≤ s := Int.floor_le s
  have h2 : s < ⌊s⌋ + 1 := Int.lt_floor_add_one s
  rw [abs_le]
  unfold roundNearestEven
  split_ifs with ha hb hc <;> constructor <;> push_cast <;> linarith

lemma roundDouble_pos_eq (q : ℚ) (hq : 0 < q) :
    roundDouble q =
      (roundNearestEven (q * 2 ^ (52 - Int.log 2 q)) : ℚ) *
        2 ^ (Int.log 2 q - 52) := by
  unfold roundDouble
  rw [if_neg hq.ne', abs_of_pos hq,
    Int.sign_eq_one_of_pos (Rat.num_pos.2 hq)]
  push_cast
  ring

lemma int_log_eq (q : ℚ) (L : Int) (hq : 0 < q) (h1 : (2:ℚ) ^ L ≤ q)
    (h2 : q < (2:ℚ) ^ (L + 1)) : Int.log 2 q = L := by
  have hb : (1:ℕ) < 2 := by norm_num
  have hcast : ((2:ℕ) : ℚ) = (2:ℚ) := by norm_num
  have ha : L ≤ Int.log 2 q := by
    rw [← Int.zpow_le_iff_le_log hb hq, hcast]
    exact h1
  have hb2 : Int.log 2 q < L + 1 := by
    rw [← Int.lt_zpow_iff_log_lt hb hq, hcast]
    exact h2
  omega

/-- Correct rounding has relative error at most one half unit in the
last of the 53 significand bits. -/
lemma roundDouble_err (q : ℚ) (hq : 0 < q) :
    |roundDouble q - q| ≤ q / 2 ^ 53 := by
  rw [roundDouble_pos_eq q hq]
  have hL := Int.zpow_log_le_self (b := 2) (by norm_num) hq
  have hcast : ((2:ℕ) : ℚ) = (2:ℚ) := by norm_num
  rw [hcast] at hL
  have h2 : (2:ℚ) ≠ 0 := by norm_num
  have hqs : q * 2 ^ (52 - Int.log 2 q) * 2 ^ (Int.log 2 q - 52) = q := by
    rw [mul_assoc, ← zpow_add₀ h2]
    norm_num
  have key : (roundNearestEven (q * 2 ^ (52 - Int.log 2 q)) : ℚ) *
      2 ^ (Int.log 2 q - 52) - q =
      ((roundNearestEven (q * 2 ^ (52 - Int.log 2 q)) : ℚ) -
        q * 2 ^ (52 - Int.log 2 q)) * 2 ^ (Int.log 2 q - 52) := by
    rw [sub_mul, hqs]
  rw [key, abs_mul, abs_of_pos (zpow_pos (by norm_num : (0:ℚ) < 2) _)]
  calc |(roundNearestEven (q * 2 ^ (52 - Int.log 2 q)) : ℚ) -
        q * 2 ^ (52 - Int.log 2 q)| * 2 ^ (Int.log 2 q - 52)
      ≤ (1/2) * 2 ^ (Int.log 2 q - 52) := by
        exact mul_le_mul_of_nonneg_right
          (roundNearestEven_sub_abs_le _)
          (zpow_pos (by norm_num : (0:ℚ) < 2) _).le
    _ = (2:ℚ) ^ (Int.log 2 q) / 2 ^ 53 := by
        have h53 : (2:ℚ) ^ (53:ℕ) = (2:ℚ) ^ (53:ℤ) :=
          (zpow_natCast 2 53).symm
        have hne : ((2:ℚ) ^ (53:ℤ)) ≠ 0 := by positivity
        rw [h53, eq_div_iff hne, mul_assoc, ← zpow_add₀ h2]
        have he : Int.log 2 q - 52 + 53 = Int.log 2 q + 1 := by ring
        rw [he, zpow_add₀ h2, zpow_one]
        ring
    _ ≤ q / 2 ^ 53 := div_le_div_of_nonneg_right hL (by positivity)

lemma roundDouble_le_mul (q : ℚ) (hq : 0 < q) :
    roundDouble q ≤ q * (1 + 1/2^53) := by
  have h := (abs_le.mp (roundDouble_err q hq)).2
  have hd : q / 2^53 = q * (1/2^53) := by ring
  linarith [hd ▸ h]

lemma mul_le_roundDouble (q : ℚ) (hq : 0 < q) :
    q * (1 - 1/2^53) ≤ roundDouble q := by
  have h := (abs_le.mp (roundDouble_err q hq)).1
  have hd : q / 2^53 = q * (1/2^53) := by ring
  linarith [hd ▸ h]

lemma roundDouble_pos (q : ℚ) (hq : 0 < q) : 0 < roundDouble q := by
  have h := mul_le_roundDouble q hq
  nlinarith

/-- Pins the value of `roundDouble` when the scaled significand rounds
down: `L` is the binade and `n` the 53-bit significand. -/
lemma roundDouble_eq_down (q : ℚ) (L n : Int) (hq : 0 < q)
    (hL1 : (2:ℚ) ^ L ≤ q) (hL2 : q < (2:ℚ) ^ (L + 1))
    (hn1 : (n : ℚ) ≤ q * 2 ^ (52 - L))
    (hn2 : q * 2 ^ (52 - L) < (n : ℚ) + 1/2) :
    roundDouble q = (n : ℚ) * 2 ^ (L - 52) := by
  have hlog : Int.log 2 q = L := int_log_eq q L hq hL1 hL2
  rw [roundDouble_pos_eq q hq, hlog]
  have hfl : ⌊q * 2 ^ (52 - L)⌋ = n :=
    Int.floor_eq_iff.mpr ⟨hn1, by linarith⟩
  unfold roundNearestEven
  rw [hfl, if_pos (by linarith)]

/-- Pins the value of `roundDouble` when the scaled significand rounds
up. -/
lemma roundDouble_eq_up (q : ℚ) (L n : Int) (hq : 0 < q)
    (hL1 : (2:ℚ) ^ L ≤ q) (hL2 : q < (2:ℚ) ^ (L + 1))
    (hn1 : (n : ℚ) - 1/2 < q * 2 ^ (52 - L))
    (hn2 : q * 2 ^ (52 - L) < (n : ℚ)) :
    roundDouble q = (n : ℚ) * 2 ^ (L - 52) := by
  have hlog : Int.log 2 q = L := int_log_eq q L hq hL1 hL2
  rw [roundDouble_pos_eq q hq, hlog]
  have hfl : ⌊q * 2 ^ (52 - L)⌋ = n - 1 :=
    Int.floor_eq_iff.mpr ⟨by push_cast; linarith, by push_cast; linarith⟩
  unfold roundNearestEven
  rw [hfl, if_neg (by push_cast; linarith),
    if_pos (by push_cast; linarith)]
  push_cast
  ring

lemma fp_trunc_window (m : Int) (B : ℚ) (hB1 : (m:ℚ) - 1 < B)
    (hB2 : B < (m:ℚ) + 1) (hBpos : 0 < B) :
    m - 1 ≤ ratTrunc B ∧ ratTrunc B ≤ m := by
  rw [ratTrunc_of_nonneg B hBpos.le]
  have hfl1 : (⌊B⌋ : ℚ) ≤ B := Int.floor_le B
  have hfl2 : B < ⌊B⌋ + 1 := Int.lt_floor_add_one B
  constructor
  · have h2 : (((m - 2 : Int)) : ℚ) < (⌊B⌋ : ℚ) := by push_cast; linarith
    have h3 : (m - 2 : Int) < ⌊B⌋ := by exact_mod_cast h2
    omega
  · have h2 : (⌊B⌋ : ℚ) < (((m + 1 : Int)) : ℚ) := by push_cast; linarith
    have h3 : ⌊B⌋ < (m + 1 : Int) := by exact_mod_cast h2
    omega

lemma fp_trunc_le (m : Int) (B : ℚ) (hB2 : B < (m:ℚ) + 1)
    (hBpos : 0 < B) : ratTrunc B ≤ m := by
  rw [ratTrunc_of_nonneg B hBpos.le]
  have hfl1 : (⌊B⌋ : ℚ) ≤ B := Int.floor_le B
  have h2 : (⌊B⌋ : ℚ) < (((m + 1 : Int)) : ℚ) := by push_cast; linarith
  have h3 : ⌊B⌋ < (m + 1 : Int) := by exact_mod_cast h2
  omega

/-- Error propagation through the resize computation: with `big` the
larger and `sml` the smaller dimension, the truncation at the larger
dimension lands on `m - 1` or `m`, and at the smaller dimension stays at
most `m`. Two correct roundings lose at most a relative `2^-52`ish
factor, which for `m ≤ 2^51` is under half a unit. -/
lemma fp_pair_bounds (big sml : Nat) (m : Int) (hbig0 : 0 < big)
    (hsml0 : 0 < sml) (hle : sml ≤ big) (hm : 0 < m)
    (hm2 : m ≤ 2 ^ 51) (r : ℚ)
    (hr : r = min (roundDouble ((m:ℚ)/(big:ℚ)))
      (roundDouble ((m:ℚ)/(sml:ℚ)))) :
    (m - 1 ≤ ratTrunc (roundDouble ((big:ℚ) * r)) ∧
     ratTrunc (roundDouble ((big:ℚ) * r)) ≤ m) ∧
    ratTrunc (roundDouble ((sml:ℚ) * r)) ≤ m := by
  have hM : (0:ℚ) < (m:ℚ) := by exact_mod_cast hm
  have hM2 : (m:ℚ) ≤ 2 ^ 51 := by exact_mod_cast hm2
  have hbigQ : (0:ℚ) < (big:ℚ) := by exact_mod_cast hbig0
  have hsmlQ : (0:ℚ) < (sml:ℚ) := by exact_mod_cast hsml0
  have hleQ : (sml:ℚ) ≤ (big:ℚ) := by exact_mod_cast hle
  have hq1 : (0:ℚ) < (m:ℚ)/(big:ℚ) := div_pos hM hbigQ
  have hq2 : (0:ℚ) < (m:ℚ)/(sml:ℚ) := div_pos hM hsmlQ
  have hrpos : 0 < r := by
    rw [hr]
    exact lt_min (roundDouble_pos _ hq1) (roundDouble_pos _ hq2)
  have hrup : r ≤ (m:ℚ)/(big:ℚ) * (1 + 1/2^53) := by
    rw [hr]
    exact le_trans (min_le_left _ _) (roundDouble_le_mul _ hq1)
  have hrlow : (m:ℚ)/(big:ℚ) * (1 - 1/2^53) ≤ r := by
    rw [hr]
    refine le_min (mul_le_roundDouble _ hq1) ?_
    refine le_trans ?_ (mul_le_roundDouble _ hq2)
    have hdd : (m:ℚ)/(big:ℚ) ≤ (m:ℚ)/(sml:ℚ) :=
      div_le_div_of_nonneg_left hM.le hsmlQ hleQ
    exact mul_le_mul_of_nonneg_right hdd (by norm_num)
  have hA_up : (big:ℚ) * r ≤ (m:ℚ) * (1 + 1/2^53) := by
    have h1 : (big:ℚ) * ((m:ℚ)/(big:ℚ) * (1 + 1/2^53)) =
        (m:ℚ) * (1 + 1/2^53) := by
      field_simp
      ring
    have h2 := mul_le_mul_of_nonneg_left hrup hbigQ.le
    rw [h1] at h2
    exact h2
  have hA_low : (m:ℚ) * (1 - 1/2^53) ≤ (big:ℚ) * r := by
    have h1 : (big:ℚ) * ((m:ℚ)/(big:ℚ) * (1 - 1/2^53)) =
        (m:ℚ) * (1 - 1/2^53) := by
      field_simp
      ring
    have h2 := mul_le_mul_of_nonneg_left hrlow hbigQ.le
    rw [h1] at h2
    exact h2
  have hApos : (0:ℚ) < (big:ℚ) * r := mul_pos hbigQ hrpos
  have hB_up : roundDouble ((big:ℚ) * r) ≤
      (m:ℚ) * (1 + 1/2^53) * (1 + 1/2^53) := by
    have h1 := roundDouble_le_mul _ hApos
    have h2 := mul_le_mul_of_nonneg_right hA_up
      (by norm_num : (0:ℚ) ≤ 1 + 1/2^53)
    exact le_trans h1 h2
  have hB_low : (m:ℚ) * (1 - 1/2^53) * (1 - 1/2^53) ≤
      roundDouble ((big:ℚ) * r) := by
    have h1 := mul_le_roundDouble _ hApos
    have h2 := mul_le_mul_of_nonneg_right hA_low
      (by norm_num : (0:ℚ) ≤ 1 - 1/2^53)
    exact le_trans h2 h1
  have hBpos : 0 < roundDouble ((big:ℚ) * r) := roundDouble_pos _ hApos
  have hwin1 : (m:ℚ) - 1 < roundDouble ((big:ℚ) * r) := by
    norm_num at hB_low hM2 ⊢
    linarith
  have hwin2 : roundDouble ((big:ℚ) * r) < (m:ℚ) + 1 := by
    norm_num at hB_up hM2 ⊢
    linarith
  refine ⟨fp_trunc_window m _ hwin1 hwin2 hBpos, ?_⟩
  have hA2_up : (sml:ℚ) * r ≤ (m:ℚ) * (1 + 1/2^53) := by
    have hstep : (sml:ℚ) * r ≤ (big:ℚ) * r :=
      mul_le_mul_of_nonneg_right hleQ hrpos.le
    linarith
  have hA2pos : (0:ℚ) < (sml:ℚ) * r := mul_pos hsmlQ hrpos
  have hB2_up : roundDouble ((sml:ℚ) * r) ≤
      (m:ℚ) * (1 + 1/2^53) * (1 + 1/2^53) := by
    have h1 := roundDouble_le_mul _ hA2pos
    have h2 := mul_le_mul_of_nonneg_right hA2_up
      (by norm_num : (0:ℚ) ≤ 1 + 1/2^53)
    exact le_trans h1 h2
  have hB2pos : 0 < roundDouble ((sml:ℚ) * r) := roundDouble_pos _ hA2pos
  have hwin2b : roundDouble ((sml:ℚ) * r) < (m:ℚ) + 1 := by
    norm_num at hB2_up hM2 ⊢
    linarith
  exact fp_trunc_le m _ hwin2b hB2pos

lemma ratTrunc_eq_of_pos_window (q : ℚ) (n : Int) (h1 : (n:ℚ) ≤ q)
    (h2 : q < (n:ℚ) + 1) (h0 : 0 ≤ n) : ratTrunc q = n := by
  have hq : (0:ℚ) ≤ q := le_trans (by exact_mod_cast h0) h1
  rw [ratTrunc_of_nonneg q hq]
  exact Int.floor_eq_iff.mpr ⟨h1, h2⟩

/-! ### The concrete double computation at a 392x300 image, max 256 -/

lemma roundDouble_256_div_392 :
    roundDouble ((256:ℚ)/392) = 5882252574524729 * (2:ℚ)^(-53 : Int) := by
  have h := roundDouble_eq_down ((256:ℚ)/392) (-1) 5882252574524729
    (by norm_num) (by norm_num) (by norm_num) (by norm_num) (by norm_num)
  exact h.trans (by norm_num)

lemma roundDouble_256_div_300 :
    roundDouble ((256:ℚ)/300) = 7686143364045647 * (2:ℚ)^(-53 : Int) := by
  have h := roundDouble_eq_up ((256:ℚ)/300) (-1) 7686143364045647
    (by norm_num) (by norm_num) (by norm_num) (by norm_num) (by norm_num)
  exact h.trans (by norm_num)

lemma resizeScaleFP_392_300_256 :
    resizeScaleFP 392 300 256 = 5882252574524729 * (2:ℚ)^(-53 : Int) := by
  unfold resizeScaleFP
  have hc1 : ((256 : Int) : ℚ) / ((392 : Nat) : ℚ) = (256:ℚ)/392 := by
    norm_num
  have hc2 : ((256 : Int) : ℚ) / ((300 : Nat) : ℚ) = (256:ℚ)/300 := by
    norm_num
  rw [hc1, hc2, roundDouble_256_div_392, roundDouble_256_div_300]
  apply min_eq_left
  have hz : (0:ℚ) < (2:ℚ)^(-53 : Int) := zpow_pos (by norm_num) _
  exact mul_le_mul_of_nonneg_right (by norm_num) hz.le

lemma roundDouble_392_mul_ratio :
    roundDouble ((392:ℚ) * (5882252574524729 * (2:ℚ)^(-53 : Int))) =
      9007199254740991 * (2:ℚ)^(-45 : Int) := by
  have harg : (392:ℚ) * (5882252574524729 * (2:ℚ)^(-53 : Int)) =
      2305843009213693768 / 9007199254740992 := by
    rw [show ((-53 : Int)) = -(53:ℕ) from rfl, zpow_neg, zpow_natCast]
    norm_num
  rw [harg]
  have h := roundDouble_eq_down (2305843009213693768 / 9007199254740992)
    7 9007199254740991
    (by norm_num) (by norm_num) (by norm_num) (by norm_num) (by norm_num)
  exact h.trans (by norm_num)

lemma roundDouble_300_mul_ratio :
    roundDouble ((300:ℚ) * (5882252574524729 * (2:ℚ)^(-53 : Int))) =
      6893264735771167 * (2:ℚ)^(-45 : Int) := by
  have harg : (300:ℚ) * (5882252574524729 * (2:ℚ)^(-53 : Int)) =
      1764675772357418700 / 9007199254740992 := by
    rw [show ((-53 : Int)) = -(53:ℕ) from rfl, zpow_neg, zpow_natCast]
    norm_num
  rw [harg]
  have h := roundDouble_eq_up (1764675772357418700 / 9007199254740992)
    7 6893264735771167
    (by norm_num) (by norm_num) (by norm_num) (by norm_num) (by norm_num)
  exact h.trans (by norm_num)

lemma trunc_392_side :
    ratTrunc (9007199254740991 * (2:ℚ)^(-45 : Int)) = 255 := by
  apply ratTrunc_eq_of_pos_window
  · rw [show ((-45 : Int)) = -(45:ℕ) from rfl, zpow_neg, zpow_natCast]
    norm_num
  · rw [show ((-45 : Int)) = -(45:ℕ) from rfl, zpow_neg, zpow_natCast]
    norm_num
  · norm_num

lemma trunc_300_side :
    ratTrunc (6893264735771167 * (2:ℚ)^(-45 : Int)) = 195 := by
  apply ratTrunc_eq_of_pos_window
  · rw [show ((-45 : Int)) = -(45:ℕ) from rfl, zpow_neg, zpow_natCast]
    norm_num
  · rw [show ((-45 : Int)) = -(45:ℕ) from rfl, zpow_neg, zpow_natCast]
    norm_num
  · norm_num

lemma outputDimsFP_392_300_256 :
    outputDimsFP 392 300 (some 256) = (255, 195) := by
  have hbig : ((392 : Nat) : Int) > 256 ∨ ((300 : Nat) : Int) > 256 := by
    left
    norm_num
  simp only [outputDimsFP]
  rw [if_pos (by norm_num : (256 : Int) ≠ 0), if_pos hbig,
    resizeScaleFP_392_300_256]
  have hc1 : ((392 : Nat) : ℚ) = (392 : ℚ) := by norm_num
  have hc2 : ((300 : Nat) : ℚ) = (300 : ℚ) := by norm_num
  rw [hc1, hc2, roundDouble_392_mul_ratio, roundDouble_300_mul_ratio,
    trunc_392_side, trunc_300_side]

/-! ### Claims -/

/-- Idealization of the resize computation: if the ratio and products
were computed in exact rational arithmetic, the larger output dimension
would equal the max dimension exactly. This is the statement C1 makes;
the program's double rounding breaks it (see the C1 counterexample). -/
lemma exact_arith_larger_dim_eq_max (img : Img) (o : OutputSpec)
    (m : Int) (hmax : o.height = some m) (hw : 0 < img.width)
    (hh : 0 < img.height) (hm : 0 < m)
    (hbig : m < max (img.width : Int) (img.height : Int)) :
    max (saveOutput img o).dims.1 (saveOutput img o).dims.2 = m ∧
    (saveOutput img o).dims =
      (ratTrunc ((img.width : ℚ) *
         min ((m : ℚ) / (img.width : ℚ)) ((m : ℚ) / (img.height : ℚ))),
       ratTrunc ((img.height : ℚ) *
         min ((m : ℚ) / (img.width : ℚ)) ((m : ℚ) / (img.height : ℚ)))) := by
  have hbig' : (img.width : Int) > m ∨ (img.height : Int) > m :=
    lt_max_iff.mp hbig
  have hdims : (saveOutput img o).dims =
      (ratTrunc ((img.width : ℚ) * resizeScale img.width img.height m),
       ratTrunc ((img.height : ℚ) * resizeScale img.width img.height m)) := by
    simp [saveOutput, hmax, outputDims_resize _ _ _ hm.ne' hbig']
  refine ⟨?_, by rw [hdims]; rfl⟩
  rw [hdims]
  rcases le_total img.height img.width with hle | hle
  · have h1 := trunc_left_eq img.width img.height m hw hh hle hm.le
    have h2 : ratTrunc ((img.height : ℚ) *
        resizeScale img.width img.height m) ≤ m :=
      ratTrunc_le_intCast _ m
        (mul_nonneg (Nat.cast_nonneg _)
          (resizeScale_nonneg _ _ _ hm.le))
        (mul_resizeScale_le_right _ _ _ hh)
    simpa [h1] using max_eq_left h2
  · have h1 := trunc_right_eq img.width img.height m hw hh hle hm.le
    have h2 : ratTrunc ((img.width : ℚ) *
        resizeScale img.width img.height m) ≤ m :=
      ratTrunc_le_intCast _ m
        (mul_nonneg (Nat.cast_nonneg _)
          (resizeScale_nonneg _ _ _ hm.le))
        (mul_resizeScale_le_left _ _ _ hw)
    simpa [h1] using max_eq_right h2

/-- C1 counterexample: at a 392x300 image with max dimension 256 the
program's double arithmetic computes `int(392 * (256/392)) = 255`
(`256/392` rounds below `32/49`, and the product rounds to just under
256), so the larger saved dimension is 255, not the requested 256, and
the saved dimensions are not the exact-rational truncations `(256, 195)`
the claim asserts. -/
theorem C1_counterexample_float_rounding :
    outputDimsFP 392 300 (some 256) = (255, 195) ∧
    max (outputDimsFP 392 300 (some 256)).1
      (outputDimsFP 392 300 (some 256)).2 ≠ 256 ∧
    outputDimsFP 392 300 (some 256) ≠
      (ratTrunc ((392 : ℚ) * min ((256:ℚ)/392) ((256:ℚ)/300)),
       ratTrunc ((300 : ℚ) * min ((256:ℚ)/392) ((256:ℚ)/300))) := by
  have he := outputDimsFP_392_300_256
  refine ⟨he, ?_, ?_⟩
  · rw [he]
    decide
  · rw [he]
    have hmin : min ((256:ℚ)/392) ((256:ℚ)/300) = (256:ℚ)/392 := by
      apply min_eq_left
      norm_num
    rw [hmin]
    have h1 : (392:ℚ) * ((256:ℚ)/392) = ((256 : Int) : ℚ) := by norm_num
    rw [h1, ratTrunc_intCast]
    intro hco
    have := congrArg Prod.fst hco
    norm_num at this

/-- C1 (amended): under the program's double-precision arithmetic
(correctly rounded division and multiplication), for every image whose
larger dimension strictly exceeds the requested positive max dimension
(itself at most `2^51`, far beyond any feasible image), both saved
dimensions are the truncation of the rounded product of the original
dimension with the rounded ratio `min(max/width, max/height)`, and the
output's larger dimension equals the max dimension or falls exactly one
short of it through rounding. -/
theorem C1_downscale_larger_dim_near_max (w h : Nat) (m : Int)
    (hw : 0 < w) (hh : 0 < h) (hm : 0 < m) (hm2 : m ≤ 2 ^ 51)
    (hbig : m < max (w : Int) (h : Int)) :
    outputDimsFP w h (some m) =
      (ratTrunc (roundDouble ((w : ℚ) * resizeScaleFP w h m)),
       ratTrunc (roundDouble ((h : ℚ) * resizeScaleFP w h m))) ∧
    m - 1 ≤ max (outputDimsFP w h (some m)).1
      (outputDimsFP w h (some m)).2 ∧
    max (outputDimsFP w h (some m)).1
      (outputDimsFP w h (some m)).2 ≤ m := by
  have hbig' : (w : Int) > m ∨ (h : Int) > m := lt_max_iff.mp hbig
  have hdef : outputDimsFP w h (some m) =
      (ratTrunc (roundDouble ((w : ℚ) * resizeScaleFP w h m)),
       ratTrunc (roundDouble ((h : ℚ) * resizeScaleFP w h m))) := by
    simp only [outputDimsFP]
    rw [if_pos hm.ne', if_pos hbig']
  rcases le_total h w with hle | hle
  · have hb := fp_pair_bounds w h m hw hh hle hm hm2
      (resizeScaleFP w h m) rfl
    refine ⟨hdef, ?_, ?_⟩ <;> rw [hdef]
    · exact le_trans hb.1.1 (le_max_left _ _)
    · exact max_le hb.1.2 hb.2
  · have hb := fp_pair_bounds h w m hh hw hle hm hm2
      (resizeScaleFP w h m) (min_comm _ _)
    refine ⟨hdef, ?_, ?_⟩ <;> rw [hdef]
    · exact le_trans hb.1.1 (le_max_right _ _)
    · exact max_le hb.2 hb.1.2

/-- Witness for the amended C1 at the concrete 392x300 image with max
dimension 256. -/
theorem C1_downscale_larger_dim_near_max_witness :
    0 < (392 : Nat) ∧ 0 < (300 : Nat) ∧ (0 : Int) < 256 ∧
    (256 : Int) ≤ 2 ^ 51 ∧
    (256 : Int) < max ((392 : Nat) : Int) ((300 : Nat) : Int) ∧
    (outputDimsFP 392 300 (some 256) =
      (ratTrunc (roundDouble (((392 : Nat) : ℚ) *
         resizeScaleFP 392 300 256)),
       ratTrunc (roundDouble (((300 : Nat) : ℚ) *
         resizeScaleFP 392 300 256))) ∧
     256 - 1 ≤ max (outputDimsFP 392 300 (some 256)).1
        (outputDimsFP 392 300 (some 256)).2 ∧
     max (outputDimsFP 392 300 (some 256)).1
        (outputDimsFP 392 300 (some 256)).2 ≤ 256) :=
  ⟨by decide, by decide, by decide, by decide, by decide,
   C1_downscale_larger_dim_near_max 392 300 256 (by decide) (by decide)
     (by decide) (by decide) (by decide)⟩

/-- C2: when both input dimensions are at most the requested max
dimension, no resize happens: the saved dimensions equal the input
dimensions (no upscaling ever occurs). -/
theorem C2_no_upscaling (img : Img) (o : OutputSpec) (m : Int)
    (hmax : o.height = some m) (hw : (img.width : Int) ≤ m)
    (hh : (img.height : Int) ≤ m) :
    (saveOutput img o).dims = ((img.width : Int), (img.height : Int)) := by
  simp only [saveOutput, hmax, outputDims]
  rcases eq_or_ne m 0 with h0 | h0
  · simp [h0]
  · rw [if_pos h0, if_neg (not_or.mpr ⟨not_lt.2 hw, not_lt.2 hh⟩)]

/-- Witness for C2 at a concrete input: a 5x3 image with max dimension
5 is saved at 5x3. -/
theorem C2_no_upscaling_witness :
    (⟨"out.jpg", some 5⟩ : OutputSpec).height = some 5 ∧
    ((5 : Nat) : Int) ≤ 5 ∧ ((3 : Nat) : Int) ≤ 5 ∧
    (saveOutput ⟨5, 3⟩ ⟨"out.jpg", some 5⟩).dims =
      (((5 : Nat) : Int), ((3 : Nat) : Int)) :=
  ⟨rfl, by decide, by decide,
   C2_no_upscaling ⟨5, 3⟩ ⟨"out.jpg", some 5⟩ 5 rfl (by decide) (by decide)⟩

/-- C3: a present positive max dimension is an upper bound on both saved
dimensions. -/
theorem C3_max_dim_bounds_both (img : Img) (o : OutputSpec) (m : Int)
    (hmax : o.height = some m) (hw : 0 < img.width) (hh : 0 < img.height)
    (hm : 0 < m) :
    (saveOutput img o).dims.1 ≤ m ∧ (saveOutput img o).dims.2 ≤ m := by
  simpa [saveOutput, hmax] using
    outputDims_le img.width img.height m hw hh hm

/-- Witness for C3 at a concrete input: a 5x3 image with max dimension
4 is saved with both dimensions at most 4. -/
theorem C3_max_dim_bounds_both_witness :
    (⟨"out.jpg", some 4⟩ : OutputSpec).height = some 4 ∧
    0 < (5 : Nat) ∧ 0 < (3 : Nat) ∧ (0 : Int) < 4 ∧
    ((saveOutput ⟨5, 3⟩ ⟨"out.jpg", some 4⟩).dims.1 ≤ 4 ∧
     (saveOutput ⟨5, 3⟩ ⟨"out.jpg", some 4⟩).dims.2 ≤ 4) :=
  ⟨rfl, by decide, by decide, by decide,
   C3_max_dim_bounds_both ⟨5, 3⟩ ⟨"out.jpg", some 4⟩ 4 rfl
     (by decide) (by decide) (by decide)⟩

/-- When every save succeeds the loop writes exactly one file per
descriptor, in order, and reports success. -/
lemma runOutputs_all_ok (img : Img) (saveOk : String → Bool)
    (outs : List OutputSpec)
    (hall : ∀ o ∈ outs, saveOk o.path = true) :
    runOutputs img saveOk outs = (outs.map (saveOutput img), true) := by
  induction outs with
  | nil => rfl
  | cons o rest ih =>
    have ho : saveOk o.path = true := hall o (List.mem_cons_self o rest)
    have hr := ih (fun x hx => hall x (List.mem_cons_of_mem o hx))
    simp [runOutputs, ho, hr]

/-- The loop completes without an exception exactly when every
descriptor's save succeeds. -/
lemma runOutputs_snd_eq_all (img : Img) (saveOk : String → Bool)
    (outs : List OutputSpec) :
    (runOutputs img saveOk outs).2 = outs.all (fun o => saveOk o.path) := by
  induction outs with
  | nil => rfl
  | cons o rest ih =>
    by_cases ho : saveOk o.path = true
    · simp [runOutputs, ho, ih]
    · simp [runOutputs, Bool.eq_false_iff.mpr ho]

/-- A failing save aborts the loop: exactly the descriptors before the
failing one have been written. -/
lemma runOutputs_fail_stops (img : Img) (saveOk : String → Bool)
    (pre : List OutputSpec) (bad : OutputSpec) (post : List OutputSpec)
    (hpre : ∀ o ∈ pre, saveOk o.path = true)
    (hbad : saveOk bad.path = false) :
    runOutputs img saveOk (pre ++ bad :: post) =
      (pre.map (saveOutput img), false) := by
  induction pre with
  | nil => simp [runOutputs, hbad]
  | cons o rest ih =>
    have ho : saveOk o.path = true := hpre o (List.mem_cons_self o rest)
    have hr := ih (fun x hx => hpre x (List.mem_cons_of_mem o hx))
    simp [runOutputs, ho, hr]

/-- Every file the loop writes has the JPEG format and quality 85. -/
lemma runOutputs_mem_jpeg (img : Img) (saveOk : String → Bool)
    (outs : List OutputSpec) (f : SavedFile)
    (hf : f ∈ (runOutputs img saveOk outs).1) :
    f.format = "JPEG" ∧ f.quality = 85 := by
  induction outs with
  | nil => simp [runOutputs] at hf
  | cons o rest ih =>
    by_cases ho : saveOk o.path = true
    · simp [runOutputs, ho] at hf
      rcases hf with hf | hf
      · rw [hf]; exact ⟨rfl, rfl⟩
      · exact ih hf
    · simp [runOutputs, Bool.eq_false_iff.mpr ho] at hf

/-- On the success path `process_image` writes exactly one file per
descriptor, in order. -/
lemma process_image_saved_all_ok (env : Env) (input_path : String)
    (outs : List OutputSpec) (hex : env.fileExists = true)
    (hdec : env.decodeOk = true)
    (hall : ∀ o ∈ outs, env.saveOk o.path = true) :
    (process_image env input_path outs).saved =
      outs.map (saveOutput env.img) := by
  have hrun := runOutputs_all_ok env.img env.saveOk outs hall
  simp [process_image, hex, hdec, hrun]

/-- C5: a nonexistent input path makes `process_image` print the
not-found message to standard error and exit with code 1, with no file
saved; the result does not depend on the decode or save outcomes. -/
theorem C5_missing_input_exits_1 (env : Env) (input_path : String)
    (outputs : List OutputSpec) (hex : env.fileExists = false) :
    process_image env input_path outputs =
      { exitCode := 1
        stderr := ["Error: Input file not found: " ++ input_path]
        saved := [] } := by
  simp [process_image, hex]

/-- Witness for C5 at a concrete input. -/
theorem C5_missing_input_exits_1_witness :
    (⟨false, true, ⟨1, 1⟩, fun _ => true⟩ : Env).fileExists = false ∧
    process_image ⟨false, true, ⟨1, 1⟩, fun _ => true⟩ "gone.jpg"
        [⟨"out.jpg", some 3⟩] =
      { exitCode := 1
        stderr := ["Error: Input file not found: " ++ "gone.jpg"]
        saved := [] } :=
  ⟨rfl, C5_missing_input_exits_1 ⟨false, true, ⟨1, 1⟩, fun _ => true⟩
    "gone.jpg" [⟨"out.jpg", some 3⟩] rfl⟩

/-- C6: every file written by `process_image`, for every output
descriptor and every environment (hence regardless of the input image's
format, HEIC included), is a JPEG saved at quality 85. -/
theorem C6_always_jpeg_quality_85 (env : Env) (input_path : String)
    (outputs : List OutputSpec) (f : SavedFile)
    (hf : f ∈ (process_image env input_path outputs).saved) :
    f.format = "JPEG" ∧ f.quality = 85 := by
  unfold process_image at hf
  by_cases h1 : env.fileExists = false
  · simp [h1] at hf
  · by_cases h2 : env.decodeOk = false
    · simp [h1, h2] at hf
    · by_cases h3 : (runOutputs env.img env.saveOk outputs).2 = true
      · simp [h1, h2, h3] at hf
        exact runOutputs_mem_jpeg _ _ _ _ hf
      · simp [h1, h2, Bool.eq_false_iff.mpr h3] at hf
        exact runOutputs_mem_jpeg _ _ _ _ hf

/-- Witness for C6 at a concrete input. -/
theorem C6_always_jpeg_quality_85_witness :
    saveOutput ⟨100, 50⟩ ⟨"a.jpg", none⟩ ∈
      (process_image ⟨true, true, ⟨100, 50⟩, fun _ => true⟩ "in.heic"
        [⟨"a.jpg", none⟩]).saved ∧
    ((saveOutput ⟨100, 50⟩ ⟨"a.jpg", none⟩).format = "JPEG" ∧
     (saveOutput ⟨100, 50⟩ ⟨"a.jpg", none⟩).quality = 85) := by
  have hmem : saveOutput ⟨100, 50⟩ ⟨"a.jpg", none⟩ ∈
      (process_image ⟨true, true, ⟨100, 50⟩, fun _ => true⟩ "in.heic"
        [⟨"a.jpg", none⟩]).saved := by
    simp [process_image, runOutputs]
  exact ⟨hmem, C6_always_jpeg_quality_85 _ _ _ _ hmem⟩

/-- C7: with the input present and decoded, a failing save anywhere in
the output list is caught by the catch-all: the run exits with code 1,
prints to standard error, and no descriptor at or after the failing one
is processed or saved (exactly the preceding descriptors were saved). -/
theorem C7_failure_aborts_rest (env : Env) (input_path : String)
    (pre : List OutputSpec) (bad : OutputSpec) (post : List OutputSpec)
    (hex : env.fileExists = true) (hdec : env.decodeOk = true)
    (hpre : ∀ o ∈ pre, env.saveOk o.path = true)
    (hbad : env.saveOk bad.path = false) :
    (process_image env input_path (pre ++ bad :: post)).exitCode = 1 ∧
    (process_image env input_path (pre ++ bad :: post)).stderr ≠ [] ∧
    (process_image env input_path (pre ++ bad :: post)).saved =
      pre.map (saveOutput env.img) := by
  have hrun := runOutputs_fail_stops env.img env.saveOk pre bad post
    hpre hbad
  refine ⟨?_, ?_, ?_⟩ <;> simp [process_image, hex, hdec, hrun]

/-- Witness for C7 at a concrete input: saving the second of three
outputs fails; only the first is saved and the run exits 1. -/
theorem C7_failure_aborts_rest_witness :
    (⟨true, true, ⟨10, 10⟩, fun p => p == "ok.jpg"⟩ : Env).fileExists
        = true ∧
    (⟨true, true, ⟨10, 10⟩, fun p => p == "ok.jpg"⟩ : Env).decodeOk
        = true ∧
    (∀ o ∈ ([⟨"ok.jpg", none⟩] : List OutputSpec),
      (⟨true, true, ⟨10, 10⟩, fun p => p == "ok.jpg"⟩ : Env).saveOk o.path
        = true) ∧
    (⟨true, true, ⟨10, 10⟩, fun p => p == "ok.jpg"⟩ : Env).saveOk
        (⟨"bad.jpg", some 5⟩ : OutputSpec).path = false ∧
    ((process_image ⟨true, true, ⟨10, 10⟩, fun p => p == "ok.jpg"⟩ "i.jpg"
        ([⟨"ok.jpg", none⟩] ++ ⟨"bad.jpg", some 5⟩ ::
          [⟨"after.jpg", none⟩])).exitCode = 1 ∧
     (process_image ⟨true, true, ⟨10, 10⟩, fun p => p == "ok.jpg"⟩ "i.jpg"
        ([⟨"ok.jpg", none⟩] ++ ⟨"bad.jpg", some 5⟩ ::
          [⟨"after.jpg", none⟩])).stderr ≠ [] ∧
     (process_image ⟨true, true, ⟨10, 10⟩, fun p => p == "ok.jpg"⟩ "i.jpg"
        ([⟨"ok.jpg", none⟩] ++ ⟨"bad.jpg", some 5⟩ ::
          [⟨"after.jpg", none⟩])).saved =
       ([⟨"ok.jpg", none⟩] : List OutputSpec).map
         (saveOutput (⟨10, 10⟩ : Img))) :=
  ⟨rfl, rfl, by decide, by decide,
   C7_failure_aborts_rest ⟨true, true, ⟨10, 10⟩, fun p => p == "ok.jpg"⟩
     "i.jpg" [⟨"ok.jpg", none⟩] ⟨"bad.jpg", some 5⟩ [⟨"after.jpg", none⟩]
     rfl rfl (by decide) (by decide)⟩

/-- C8: on the success path each output is saved with dimensions computed
from the original orientation-corrected image and its own max dimension
only: the saved list is the pointwise image of the descriptor list, so no
output is affected by the other descriptors or their order. -/
theorem C8_outputs_independent (env : Env) (input_path : String)
    (outs : List OutputSpec) (hex : env.fileExists = true)
    (hdec : env.decodeOk = true)
    (hall : ∀ o ∈ outs, env.saveOk o.path = true) :
    (process_image env input_path outs).saved =
      outs.map (saveOutput env.img) :=
  process_image_saved_all_ok env input_path outs hex hdec hall

/-- Witness for C8 at a concrete input with two outputs. -/
theorem C8_outputs_independent_witness :
    (⟨true, true, ⟨8, 6⟩, fun _ => true⟩ : Env).fileExists = true ∧
    (⟨true, true, ⟨8, 6⟩, fun _ => true⟩ : Env).decodeOk = true ∧
    (∀ o ∈ ([⟨"a.jpg", some 4⟩, ⟨"b.jpg", none⟩] : List OutputSpec),
      (⟨true, true, ⟨8, 6⟩, fun _ => true⟩ : Env).saveOk o.path = true) ∧
    (process_image ⟨true, true, ⟨8, 6⟩, fun _ => true⟩ "i.jpg"
        [⟨"a.jpg", some 4⟩, ⟨"b.jpg", none⟩]).saved =
      ([⟨"a.jpg", some 4⟩, ⟨"b.jpg", none⟩] : List OutputSpec).map
        (saveOutput (⟨8, 6⟩ : Img)) :=
  ⟨rfl, rfl, by decide,
   C8_outputs_independent ⟨true, true, ⟨8, 6⟩, fun _ => true⟩ "i.jpg"
     [⟨"a.jpg", some 4⟩, ⟨"b.jpg", none⟩] rfl rfl (by decide)⟩

/-- An element of a list equal to a mapped list is the image of the
corresponding element. -/
lemma get_map_of_eq {α β : Type} (l : List α) (f : α → β) (res : List β)
    (hres : res = l.map f) (i : Nat) (hi : i < l.length)
    (hi2 : i < res.length) : res.get ⟨i, hi2⟩ = f (l.get ⟨i, hi⟩) := by
  subst hres
  simp [List.get_eq_getElem, List.getElem_map]

/-- C4 (amended): starting from parsed arguments, the exit code is 0
exactly when the input exists, decoding succeeds and every requested
output is saved; `process_image` otherwise exits 1, as does the dispatch
when neither `--outputs` nor `output_path` is given; but a missing
required `input_path` argument is rejected by `argparse` with exit code
2, not 1. -/
theorem C4_exit_codes (env : Env) (ip : String) (outs : List OutputSpec)
    (pj : String → Option (List OutputSpec)) (oflag : Option String)
    (mflag : Option Int) :
    ((process_image env ip outs).exitCode = 0 ↔
      (env.fileExists = true ∧ env.decodeOk = true ∧
       outs.all (fun o => env.saveOk o.path) = true)) ∧
    ((process_image env ip outs).exitCode = 0 ∨
     (process_image env ip outs).exitCode = 1) ∧
    (main_run env pj (Args.mk ip none none mflag)).exitCode = 1 ∧
    (parse_and_run env pj [] oflag mflag).exitCode = 2 := by
  have hsnd := runOutputs_snd_eq_all env.img env.saveOk outs
  refine ⟨?_, ?_, rfl, rfl⟩
  · cases hex : env.fileExists with
    | false => simp [process_image, hex]
    | true =>
      cases hdec : env.decodeOk with
      | false => simp [process_image, hex, hdec]
      | true =>
        by_cases hrun : (runOutputs env.img env.saveOk outs).2 = true
        · have hall : outs.all (fun o => env.saveOk o.path) = true := by
            rw [← hsnd]; exact hrun
          simp [process_image, hex, hdec, hrun, hall]
        · have hall : outs.all (fun o => env.saveOk o.path) = false := by
            rw [← hsnd]; exact Bool.eq_false_iff.mpr hrun
          simp [process_image, hex, hdec, Bool.eq_false_iff.mpr hrun,
            hall]
  · cases hex : env.fileExists with
    | false => simp [process_image, hex]
    | true =>
      cases hdec : env.decodeOk with
      | false => simp [process_image, hex, hdec]
      | true =>
        by_cases hrun : (runOutputs env.img env.saveOk outs).2 = true
        · simp [process_image, hex, hdec, hrun]
        · simp [process_image, hex, hdec, Bool.eq_false_iff.mpr hrun]

/-- C4 counterexample: an invocation with no command-line arguments is an
error (the required `input_path` is missing), yet the process exits with
code 2, not 1. -/
theorem C4_counterexample_missing_input_path :
    (parse_and_run ⟨true, true, ⟨1, 1⟩, fun _ => true⟩ demoParse []
        none none).exitCode = 2 ∧
    (parse_and_run ⟨true, true, ⟨1, 1⟩, fun _ => true⟩ demoParse []
        none none).exitCode ≠ 1 :=
  ⟨rfl, by decide⟩

/-- C9: the legacy single-output invocation (truthy positional
`output_path` with optional `--max_dimension`) is equivalent to a
`--outputs` invocation whose JSON parses to the one-element list with
that path and that max dimension: both dispatch to `process_image` with
the same arguments and produce the same result. -/
theorem C9_legacy_single_output_equiv (env : Env)
    (pj : String → Option (List OutputSpec)) (ip op s : String)
    (md : Option Int) (hs : s ≠ "") (hop : op ≠ "")
    (hparse : pj s = some [⟨op, md⟩]) :
    main_run env pj (Args.mk ip (some s) none none) =
    main_run env pj (Args.mk ip none (some op) md) := by
  simp [main_run, truthyStr, hs, hop, hparse]

/-- Witness for C9 at a concrete input. -/
theorem C9_legacy_single_output_equiv_witness :
    ("J" : String) ≠ "" ∧ ("o.jpg" : String) ≠ "" ∧
    demoParse "J" = some [⟨"o.jpg", some 320⟩] ∧
    main_run ⟨true, true, ⟨9, 4⟩, fun _ => true⟩ demoParse
      (Args.mk "i.jpg" (some "J") none none) =
    main_run ⟨true, true, ⟨9, 4⟩, fun _ => true⟩ demoParse
      (Args.mk "i.jpg" none (some "o.jpg") (some 320)) :=
  ⟨by decide, by decide, by decide,
   C9_legacy_single_output_equiv ⟨true, true, ⟨9, 4⟩, fun _ => true⟩
     demoParse "i.jpg" "o.jpg" "J" (some 320) (by decide) (by decide)
     (by decide)⟩

/-- C10: an output descriptor whose `height` is absent/`None` or `0` is
saved at the original orientation-corrected dimensions: the truthiness
guard `if max_dimension:` treats `0` like a missing max dimension. -/
theorem C10_falsy_height_original_dims (env : Env) (input_path : String)
    (outs : List OutputSpec) (hex : env.fileExists = true)
    (hdec : env.decodeOk = true)
    (hall : ∀ o ∈ outs, env.saveOk o.path = true)
    (i : Nat) (hi : i < outs.length)
    (hh : (outs.get ⟨i, hi⟩).height = none ∨
          (outs.get ⟨i, hi⟩).height = some 0) :
    ∃ hi2 : i < (process_image env input_path outs).saved.length,
      ((process_image env input_path outs).saved.get ⟨i, hi2⟩).dims =
        ((env.img.width : Int), (env.img.height : Int)) := by
  have hsaved := process_image_saved_all_ok env input_path outs hex hdec
    hall
  have hlen : i < (process_image env input_path outs).saved.length := by
    rw [hsaved, List.length_map]; exact hi
  refine ⟨hlen, ?_⟩
  rw [get_map_of_eq outs (saveOutput env.img) _ hsaved i hi hlen]
  rw [List.get_eq_getElem] at hh
  rcases hh with hh | hh <;> simp [saveOutput, outputDims, hh]

/-- Witness for C10 at a concrete input: a descriptor with `height` 0 on
a 7x9 image is saved at 7x9. -/
theorem C10_falsy_height_original_dims_witness :
    (⟨true, true, ⟨7, 9⟩, fun _ => true⟩ : Env).fileExists = true ∧
    (⟨true, true, ⟨7, 9⟩, fun _ => true⟩ : Env).decodeOk = true ∧
    (∀ o ∈ ([⟨"a.jpg", some 0⟩] : List OutputSpec),
      (⟨true, true, ⟨7, 9⟩, fun _ => true⟩ : Env).saveOk o.path = true) ∧
    (0 : Nat) < ([⟨"a.jpg", some 0⟩] : List OutputSpec).length ∧
    ((([⟨"a.jpg", some 0⟩] : List OutputSpec).get
        ⟨0, by decide⟩).height = none ∨
     (([⟨"a.jpg", some 0⟩] : List OutputSpec).get
        ⟨0, by decide⟩).height = some 0) ∧
    ∃ hi2 : 0 < (process_image ⟨true, true, ⟨7, 9⟩, fun _ => true⟩
        "p.heic" [⟨"a.jpg", some 0⟩]).saved.length,
      ((process_image ⟨true, true, ⟨7, 9⟩, fun _ => true⟩ "p.heic"
        [⟨"a.jpg", some 0⟩]).saved.get ⟨0, hi2⟩).dims =
        (((7 : Nat) : Int), ((9 : Nat) : Int)) :=
  ⟨rfl, rfl, by decide, by decide, Or.inr rfl,
   C10_falsy_height_original_dims ⟨true, true, ⟨7, 9⟩, fun _ => true⟩
     "p.heic" [⟨"a.jpg", some 0⟩] rfl rfl (by decide) 0 (by decide)
     (Or.inr rfl)⟩

end Photrix
